/-
Verification of the magic-banana repository against its specification.

Shallow embedding of the TypeScript source:
- src/app/api/enhance-image/route.ts  (Replicate proxy with polling loop)
- src/app/api/generate-image/route.ts (Gemini proxy with cost computation)
- src/app/components/AdvancedImageViewer.tsx (transform state operations)
- src/app/utils/cookies.ts (cookie utilities)

JavaScript strings are modelled as Lean String (with character lists used
for character-level algorithms), JS numbers as Rat (exact arithmetic in the
range exercised here) or Int where the source uses integer arithmetic,
nullable values as Option, thrown exceptions as Except/Option, and external
HTTP endpoints as explicit environment functions supplied as arguments.
-/
import Mathlib

namespace MagicBanana

/-! ## JavaScript string helpers -/

/-- Whitespace characters removed by the JS String.prototype.trim method:
ECMAScript WhiteSpace and LineTerminator code points. -/
def jsWs (c : Char) : Bool :=
  c.toNat = 0x9 || c.toNat = 0xA || c.toNat = 0xB || c.toNat = 0xC ||
  c.toNat = 0xD || c.toNat = 0x20 || c.toNat = 0xA0 || c.toNat = 0x1680 ||
  (0x2000 ≤ c.toNat && c.toNat ≤ 0x200A) || c.toNat = 0x2028 ||
  c.toNat = 0x2029 || c.toNat = 0x202F || c.toNat = 0x205F ||
  c.toNat = 0x3000 || c.toNat = 0xFEFF

/-- Trim characters satisfying `p` from both ends of a character list. -/
def trimBy (p : Char → Bool) (l : List Char) : List Char :=
  ((l.dropWhile p).reverse.dropWhile p).reverse

/-- The JS String.prototype.trim method, on character lists. -/
def jsTrimL (l : List Char) : List Char := trimBy jsWs l

/-- The JS String.prototype.trim method, on strings. -/
def jsTrimString (s : String) : String := String.mk (jsTrimL s.data)

/-- Truthiness of a nullable JS string: null and the empty string are falsy. -/
def jsStrTruthy : Option String → Bool
  | none => false
  | some s => !(s = "")

/-- The JS idiom `s || d` for a nullable string `s` and default `d`. -/
def jsStrOr (o : Option String) (d : String) : String :=
  match o with
  | some s => if s = "" then d else s
  | none => d

/-- The JS idiom `x || d` for a nullable number `x` and default `d`
(0 is falsy in JS). -/
def jsNumOr (o : Option ℚ) (d : ℚ) : ℚ :=
  match o with
  | some x => if x = 0 then d else x
  | none => d

/-! ## Base64 (Buffer.prototype.toString with the base64 encoding) -/

/-- The base64 alphabet, in index order. -/
def b64Alphabet : List Char :=
  "ABCDEFGHIJKLMNOPQRSTUVWXYZabcdefghijklmnopqrstuvwxyz0123456789+/".data

/-- Character for a 6-bit group. -/
def b64Char (n : Nat) : Char := b64Alphabet.getD n 'A'

/-- Index of a base64 character in the alphabet. -/
def b64Val (c : Char) : Option Nat :=
  let i := b64Alphabet.indexOf c
  if i < 64 then some i else none

/-- Standard base64 encoding of a byte list (with `=` padding), as produced
by Buffer.from(bytes).toString with the base64 encoding. -/
def base64Chars : List Nat → List Char
  | [] => []
  | [a] => [b64Char (a / 4), b64Char (a % 4 * 16), '=', '=']
  | [a, b] => [b64Char (a / 4), b64Char (a % 4 * 16 + b / 16), b64Char (b % 16 * 4), '=']
  | a :: b :: c :: rest =>
    b64Char (a / 4) :: b64Char (a % 4 * 16 + b / 16) ::
      b64Char (b % 16 * 4 + c / 64) :: b64Char (c % 64) :: base64Chars rest

/-- Standard base64 decoding of a character list back to bytes. -/
def base64DecChars : List Char → Option (List Nat)
  | [] => some []
  | c1 :: c2 :: c3 :: c4 :: rest =>
    if c3 = '=' ∧ c4 = '=' ∧ rest = [] then
      match b64Val c1, b64Val c2 with
      | some v1, some v2 => some [v1 * 4 + v2 / 16]
      | _, _ => none
    else if c4 = '=' ∧ rest = [] then
      match b64Val c1, b64Val c2, b64Val c3 with
      | some v1, some v2, some v3 => some [v1 * 4 + v2 / 16, v2 % 16 * 16 + v3 / 4]
      | _, _, _ => none
    else
      match b64Val c1, b64Val c2, b64Val c3, b64Val c4, base64DecChars rest with
      | some v1, some v2, some v3, some v4, some bs =>
        some ((v1 * 4 + v2 / 16) :: (v2 % 16 * 16 + v3 / 4) :: (v3 % 4 * 64 + v4) :: bs)
      | _, _, _, _, _ => none
  | _ => none

/-- Base64 encoding as a string. -/
def base64Encode (bs : List Nat) : String := String.mk (base64Chars bs)

/-- Base64 decoding from a string. -/
def base64Decode (s : String) : Option (List Nat) := base64DecChars s.data

/-! ## Shared request data -/

/-- An uploaded file: MIME type together with raw bytes. -/
structure FileData where
  mimeType : String
  bytes : List Nat
deriving DecidableEq

/-! ## API key selection (lines 15-24 of both route handlers)

`const apiKey = customApiKey && customApiKey.trim() ? customApiKey.trim()
             : process.env.<VAR>;  if (!apiKey) return 400;`
-/

/-- The ternary on lines 16-18: the custom key must be a non-null, non-empty
string whose trim is non-empty; otherwise fall back to the environment
variable (modelled as an optional string). -/
def chooseApiKey (customApiKey envKey : Option String) : Option String :=
  match customApiKey with
  | some c =>
    if c ≠ "" ∧ jsTrimString c ≠ "" then some (jsTrimString c) else envKey
  | none => envKey

/-- The chosen key subjected to the `if (!apiKey)` falsiness check on
line 20: an empty-string key counts as no key. -/
def validatedApiKey (customApiKey envKey : Option String) : Option String :=
  match chooseApiKey customApiKey envKey with
  | some k => if k = "" then none else some k
  | none => none

/-! ## The enhance-image endpoint (src/app/api/enhance-image/route.ts)

The Replicate API is modelled as an environment: the initial POST to
/v1/predictions (as a function of the data URI sent in the request body),
the status polls (indexed by poll number), and the download of the output
image (as a function of its URL).
-/

/-- A Replicate prediction object, with the fields the handler reads. -/
structure Prediction where
  id : String
  status : String
  error : Option String
  output : Option String
deriving DecidableEq

/-- Result of the initial POST to the Replicate predictions endpoint:
either a non-ok HTTP response (status and error detail) or a prediction. -/
inductive CreateResult where
  | httpError (status : Nat) (detail : String)
  | ok (p : Prediction)
deriving DecidableEq

/-- Environment of external Replicate interactions. -/
structure ReplicateEnv where
  create : String → CreateResult
  poll : Nat → Option Prediction
  fetchImage : String → Option (List Nat)

/-- Outcome of the polling loop on lines 62-89. -/
inductive LoopOutcome where
  | timeout
  | pollFailed
  | terminal (p : Prediction)
deriving DecidableEq

/-- Line 64: `const maxAttempts = 60`. -/
def maxAttempts : Nat := 60

/-- The loop guard on line 66: the loop keeps running exactly while the
status is starting or processing. -/
def isPolling (s : String) : Bool := s = "starting" || s = "processing"

/-- The polling loop (lines 66-89), with an explicit fuel argument kept
equal to `maxAttempts - attempts` so that fuel 0 coincides with the
`attempts >= maxAttempts` timeout check on line 67.  Returns the loop
outcome together with the number of polls performed.  `attempts` is the
number of polls performed so far, and poll number `attempts` is the next
request to the prediction-status endpoint. -/
def pollLoopGo (poll : Nat → Option Prediction) :
    Prediction → Nat → Nat → LoopOutcome × Nat
  | result, _, 0 =>
    if isPolling result.status then (.timeout, 0) else (.terminal result, 0)
  | result, attempts, fuel + 1 =>
    if isPolling result.status then
      match poll attempts with
      | none => (.pollFailed, 1)
      | some r =>
        let o := pollLoopGo poll r (attempts + 1) fuel
        (o.1, o.2 + 1)
    else (.terminal result, 0)

/-- The polling loop as entered on line 62 with `attempts = 0`. -/
def pollLoop (poll : Nat → Option Prediction) (prediction : Prediction) :
    LoopOutcome × Nat :=
  pollLoopGo poll prediction 0 maxAttempts

/-- A JSON response of the enhance-image handler: an error response with an
HTTP status and error message, or the 200 success body of lines 112-119. -/
inductive EnhanceResponse where
  | err (status : Nat) (msg : String)
  | success (data : String) (mimeType : String) (originalImageUrl : String)
deriving DecidableEq

/-- The data URI built on lines 27-30 from the uploaded file. -/
def enhanceDataUri (f : FileData) : String :=
  "data:" ++ f.mimeType ++ ";base64," ++ base64Encode f.bytes

/-- Lines 91-124: the code after the polling loop has exited with a
prediction `result`. -/
def finishEnhance (result : Prediction) (fetchImage : String → Option (List Nat)) :
    EnhanceResponse :=
  if result.status = "failed" then
    .err 500 (jsStrOr result.error "Enhancement failed")
  else
    match result.output with
    | some url =>
      if result.status = "succeeded" ∧ url ≠ "" then
        match fetchImage url with
        | none => .err 500 "Failed to fetch enhanced image"
        | some bytes => .success (base64Encode bytes) "image/png" url
      else .err 500 "Enhancement completed but no output was generated"
    | none => .err 500 "Enhancement completed but no output was generated"

/-- The POST handler of src/app/api/enhance-image/route.ts.  Returns the
JSON response together with the API key used to authenticate against the
Replicate API (`none` when no Replicate request was made). -/
def enhanceHandler (imageFile : Option FileData) (customApiKey envKey : Option String)
    (renv : ReplicateEnv) : EnhanceResponse × Option String :=
  match imageFile with
  | none => (.err 400 "Image is required", none)
  | some f =>
    match validatedApiKey customApiKey envKey with
    | none =>
      (.err 400 "No API key available. Please set REPLICATE_API_TOKEN or provide a custom key.",
        none)
    | some apiKey =>
      match renv.create (enhanceDataUri f) with
      | .httpError st detail => (.err st ("Replicate API error: " ++ detail), some apiKey)
      | .ok prediction =>
        match pollLoop renv.poll prediction with
        | (.timeout, _) => (.err 408 "Enhancement timed out. Please try again.", some apiKey)
        | (.pollFailed, _) => (.err 500 "Failed to poll prediction status", some apiKey)
        | (.terminal result, _) => (finishEnhance result renv.fetchImage, some apiKey)

/-! ## The generate-image endpoint (src/app/api/generate-image/route.ts)

The Gemini API is modelled as a function from the content parts sent in the
request to the list of streamed response chunks.
-/

/-- Inline data of a streamed response part, both fields optional. -/
structure InlineData where
  data : Option String
  mimeType : Option String
deriving DecidableEq

/-- A part of a streamed response chunk. -/
structure RespPart where
  inlineData : Option InlineData
deriving DecidableEq

/-- Content of a streamed candidate; the parts array may be absent. -/
structure Content where
  parts : Option (List RespPart)
deriving DecidableEq

/-- A candidate in a streamed chunk; the content may be absent. -/
structure Candidate where
  content : Option Content
deriving DecidableEq

/-- One entry of promptTokensDetails: token count for one modality. -/
structure ModalityTokens where
  modality : String
  tokenCount : ℚ
deriving DecidableEq

/-- Token-usage metadata attached to a streamed chunk. -/
structure Usage where
  promptTokenCount : Option ℚ
  candidatesTokenCount : Option ℚ
  totalTokenCount : Option ℚ
  promptTokensDetails : Option (List ModalityTokens)
deriving DecidableEq

/-- A streamed response chunk. -/
structure Chunk where
  candidates : Option (List Candidate)
  usageMetadata : Option Usage
  text : Option String
deriving DecidableEq

/-- The mutable state of the streaming loop on lines 73-97:
`usageMetadata`, `imageData` and `textResponse`. -/
structure StreamState where
  usage : Option Usage
  imageData : Option (String × String)
  textResponse : String
deriving DecidableEq

/-- Initial state before the loop (lines 73-75). -/
def initialStream : StreamState := ⟨none, none, ""⟩

/-- The `else if (chunk.text)` branch on lines 94-96. -/
def appendChunkText (st : StreamState) (t : Option String) : StreamState :=
  match t with
  | some s => if s = "" then st else { st with textResponse := st.textResponse ++ s }
  | none => st

/-- Processing of one streamed chunk (lines 77-97).  A chunk whose
candidates array is present but empty makes `chunk.candidates[0].content`
throw a TypeError, modelled as `Except.error`; the guard on line 78 skips
chunks with absent candidates, content, or parts BEFORE usage metadata is
captured on lines 83-85. -/
def stepChunk (st : StreamState) (ch : Chunk) : Except Unit StreamState :=
  match ch.candidates with
  | none => .ok st
  | some [] => .error ()
  | some (c0 :: _) =>
    match c0.content with
    | none => .ok st
    | some content =>
      match content.parts with
      | none => .ok st
      | some parts =>
        let st1 : StreamState :=
          { st with usage := match ch.usageMetadata with
                             | some u => some u
                             | none => st.usage }
        match parts with
        | p0 :: _ =>
          match p0.inlineData with
          | some idata =>
            .ok { st1 with
                  imageData := some (idata.data.getD "", jsStrOr idata.mimeType "image/png") }
          | none => .ok (appendChunkText st1 ch.text)
        | [] => .ok (appendChunkText st1 ch.text)

/-- The `for await` loop over the streamed chunks. -/
def processChunks : StreamState → List Chunk → Except Unit StreamState
  | st, [] => .ok st
  | st, ch :: rest =>
    match stepChunk st ch with
    | .error e => .error e
    | .ok st1 => processChunks st1 rest

/-- Left-zero-padding of a natural number to four digits. -/
def pad4 (n : Nat) : String :=
  String.mk (List.replicate (4 - (toString n).length) '0') ++ toString n

/-- The JS Number.prototype.toFixed method with 4 fraction digits, on exact
rationals: round the magnitude to the nearest multiple of 1/10000, ties
away from zero, and render with exactly four fraction digits. -/
def toFixed4 (x : ℚ) : String :=
  let n := (Rat.floor (|x| * 10000 + 1 / 2)).toNat
  (if x < 0 then "-" else "") ++ toString (n / 10000) ++ "." ++ pad4 (n % 10000)

/-- The cost object built on lines 128-139. -/
structure Cost where
  inputTokens : ℚ
  outputTokens : ℚ
  inputImageTokens : ℚ
  generatedImages : ℚ
  totalTokens : ℚ
  inputCost : ℚ
  outputCost : ℚ
  imageCost : ℚ
  totalCost : ℚ
  formattedCost : String
deriving DecidableEq

/-- Lines 106-112: token count of the IMAGE modality entry of
promptTokensDetails, 0 when the details or the entry are absent. -/
def imageTokensOf (u : Usage) : ℚ :=
  match u.promptTokensDetails with
  | some details =>
    match details.find? (fun d => d.modality = "IMAGE") with
    | some d => d.tokenCount
    | none => 0
  | none => 0

/-- Lines 99-140: the cost computation from the captured usage metadata and
the presence of generated image data. -/
def computeCost (usage : Option Usage) (imageData : Option (String × String)) :
    Option Cost :=
  match usage with
  | none => none
  | some u =>
    let inputTokens := jsNumOr u.promptTokenCount 0
    let outputTokens := jsNumOr u.candidatesTokenCount 0
    let inputImageTokens := imageTokensOf u
    let inputTextTokens := inputTokens - inputImageTokens
    let inputTextCost := inputTextTokens / 1000000 * 0.30
    let outputTextCost := outputTokens / 1000000 * 2.50
    let generatedImages : ℚ := if imageData.isSome then 1 else 0
    let imageCost := generatedImages * 0.04
    let totalCost := inputTextCost + outputTextCost + imageCost
    some {
      inputTokens := inputTextTokens
      outputTokens := outputTokens
      inputImageTokens := inputImageTokens
      generatedImages := generatedImages
      totalTokens := jsNumOr u.totalTokenCount (inputTokens + outputTokens)
      inputCost := inputTextCost
      outputCost := outputTextCost
      imageCost := imageCost
      totalCost := totalCost
      formattedCost := "$" ++ toFixed4 totalCost }

/-- A content part of the request sent to the Gemini API: the prompt text
part from lines 37-41 or an inline-data image part from lines 51-56. -/
inductive GPart where
  | text (t : String)
  | inline (data : String) (mimeType : String)
deriving DecidableEq

/-- The image-appending loop on lines 44-58: for i below imageCount, the
file in form field image_i, when present, is pushed as base64 inline data
together with its MIME type. -/
def buildImageParts (files : Nat → Option FileData) (imageCount : Nat) : List GPart :=
  (List.range imageCount).filterMap fun i =>
    (files i).map fun f => .inline (base64Encode f.bytes) f.mimeType

/-- A JSON response of the generate-image handler. -/
inductive GenResponse where
  | jsonError (status : Nat) (msg : String)
  | ok (text : String) (image : Option (String × String)) (cost : Option Cost)
deriving DecidableEq

/-- The POST handler of src/app/api/generate-image/route.ts.  Returns the
JSON response together with the API key used against the Gemini API and the
content parts sent (`none` when the Gemini API was not invoked). -/
def genHandler (prompt : Option String) (imageCount : Nat) (files : Nat → Option FileData)
    (customApiKey envKey : Option String) (stream : List GPart → List Chunk) :
    GenResponse × Option (String × List GPart) :=
  if !jsStrTruthy prompt then (.jsonError 400 "Prompt is required", none)
  else
    match validatedApiKey customApiKey envKey with
    | none =>
      (.jsonError 400 "No API key available. Please set GEMINI_API_KEY or provide a custom key.",
        none)
    | some apiKey =>
      let parts := GPart.text (jsStrOr prompt "") :: buildImageParts files imageCount
      match processChunks initialStream (stream parts) with
      | .error _ => (.jsonError 500 "Failed to generate image", some (apiKey, parts))
      | .ok st =>
        (.ok st.textResponse st.imageData (computeCost st.usage st.imageData),
          some (apiKey, parts))

/-! ## The image viewer transform state
(src/app/components/AdvancedImageViewer.tsx) -/

/-- The Transform state of AdvancedImageViewer (lines 32-39).  Scale and
translation are JS numbers, modelled as rationals; the rotation only ever
holds integer degree values and is modelled as an integer. -/
structure Transform where
  scale : ℚ
  translateX : ℚ
  translateY : ℚ
  rotation : ℤ
  flipX : Bool
  flipY : Bool
deriving DecidableEq

/-- The initial transform state (lines 59-66). -/
def initialTransform : Transform := ⟨1, 0, 0, 0, false, false⟩

/-- Line 100: `zoomIn`. -/
def zoomIn (t : Transform) : Transform := { t with scale := min (t.scale * 1.5) 10 }

/-- Line 101: `zoomOut`. -/
def zoomOut (t : Transform) : Transform := { t with scale := max (t.scale / 1.5) 0.1 }

/-- Lines 161-166: `handleWheel` picks a factor of 0.9 or 1.1 from the sign
of deltaY and clamps the multiplied scale into the range 0.1 to 10. -/
def wheelZoom (t : Transform) (deltaY : ℚ) : Transform :=
  let delta : ℚ := if deltaY > 0 then 0.9 else 1.1
  { t with scale := max 0.1 (min 10 (t.scale * delta)) }

/-- Lines 183-192: the two-finger pinch update in `handleTouchMove` scales
by the ratio of touch distances and clamps into the range 0.1 to 10. -/
def pinchZoom (t : Transform) (ratio : ℚ) : Transform :=
  { t with scale := max 0.1 (min 10 (t.scale * ratio)) }

/-- Line 127: `rotate`.  The JS remainder operator on numbers truncates
toward zero, which is Int.tmod on integer values. -/
def rotate (t : Transform) : Transform :=
  { t with rotation := Int.tmod (t.rotation + 90) 360 }

/-- Line 128: `flipHorizontal`. -/
def flipHorizontal (t : Transform) : Transform := { t with flipX := !t.flipX }

/-- Line 129: `flipVertical`. -/
def flipVertical (t : Transform) : Transform := { t with flipY := !t.flipY }

/-- One of the four zoom operations of claim C8. -/
inductive ZoomOp where
  | zin
  | zout
  | wheel (deltaY : ℚ)
  | pinch (ratio : ℚ)

/-- Application of one zoom operation. -/
def applyZoom (t : Transform) : ZoomOp → Transform
  | .zin => zoomIn t
  | .zout => zoomOut t
  | .wheel d => wheelZoom t d
  | .pinch r => pinchZoom t r

/-- A sequence of zoom operations run from the initial transform. -/
def runZooms (ops : List ZoomOp) : Transform := ops.foldl applyZoom initialTransform

/-! ## Cookies (src/app/utils/cookies.ts)

`document.cookie` is modelled as a browser cookie jar: a list of
name/value entries.  Writing to `document.cookie` parses the written string
as in RFC 6265 section 5.2 (name up to the first `=` of the part before
the first `;`, with whitespace around name and value trimmed) and updates
the jar; reading yields the entries joined by a semicolon and a space. -/

/-- Characters unreserved by encodeURIComponent (kept verbatim): the ASCII
letters and digits and - _ . ! ~ * ( ) and the apostrophe (code 39), given
here by code point. -/
def isUnreservedURI (c : Char) : Bool :=
  (65 ≤ c.toNat ∧ c.toNat ≤ 90) ∨ (97 ≤ c.toNat ∧ c.toNat ≤ 122) ∨
  (48 ≤ c.toNat ∧ c.toNat ≤ 57) ∨ c.toNat = 45 ∨ c.toNat = 95 ∨ c.toNat = 46 ∨
  c.toNat = 33 ∨ c.toNat = 126 ∨ c.toNat = 42 ∨ c.toNat = 39 ∨ c.toNat = 40 ∨
  c.toNat = 41

/-- UTF-8 encoding of one character. -/
def utf8Bytes (c : Char) : List Nat :=
  let n := c.toNat
  if n < 0x80 then [n]
  else if n < 0x800 then [0xC0 + n / 64, 0x80 + n % 64]
  else if n < 0x10000 then [0xE0 + n / 4096, 0x80 + n / 64 % 64, 0x80 + n % 64]
  else [0xF0 + n / 262144, 0x80 + n / 4096 % 64, 0x80 + n / 64 % 64, 0x80 + n % 64]

/-- Uppercase hexadecimal digit for a value below 16. -/
def hexDigit (n : Nat) : Char :=
  if n < 10 then Char.ofNat (48 + n) else Char.ofNat (55 + n)

/-- Value of a hexadecimal digit character. -/
def hexVal (c : Char) : Option Nat :=
  if 48 ≤ c.toNat ∧ c.toNat ≤ 57 then some (c.toNat - 48)
  else if 65 ≤ c.toNat ∧ c.toNat ≤ 70 then some (c.toNat - 55)
  else if 97 ≤ c.toNat ∧ c.toNat ≤ 102 then some (c.toNat - 87)
  else none

/-- Percent-encoding of one byte. -/
def percentByte (b : Nat) : List Char := ['%', hexDigit (b / 16), hexDigit (b % 16)]

/-- The JS encodeURIComponent function: unreserved characters pass through,
every other character is percent-encoded byte by byte of its UTF-8 form. -/
def encodeURIComponentL : List Char → List Char
  | [] => []
  | c :: rest =>
    (if isUnreservedURI c then [c] else (utf8Bytes c).flatMap percentByte) ++
      encodeURIComponentL rest

/-- First phase of decodeURIComponent: recover the byte stream, taking
percent escapes to their byte and literal characters to their UTF-8 bytes. -/
def percentDecodeBytes : List Char → Option (List Nat)
  | [] => some []
  | c :: rest =>
    if c = '%' then
      match rest with
      | h :: l :: rest2 =>
        match hexVal h, hexVal l, percentDecodeBytes rest2 with
        | some a, some b, some bs => some ((a * 16 + b) :: bs)
        | _, _, _ => none
      | _ => none
    else (percentDecodeBytes rest).map (fun bs => utf8Bytes c ++ bs)

/-- UTF-8 decoding of a byte stream. -/
def utf8Decode : List Nat → Option (List Char)
  | [] => some []
  | b :: rest =>
    if b < 0x80 then (utf8Decode rest).map (fun cs => Char.ofNat b :: cs)
    else if b < 0xC0 then none
    else if b < 0xE0 then
      match rest with
      | [] => none
      | b2 :: rest2 =>
        if 0x80 ≤ b2 ∧ b2 < 0xC0 then
          (utf8Decode rest2).map (fun cs => Char.ofNat ((b - 0xC0) * 64 + (b2 - 0x80)) :: cs)
        else none
    else if b < 0xF0 then
      match rest with
      | [] => none
      | b2 :: rest2 =>
        match rest2 with
        | [] => none
        | b3 :: rest3 =>
          if (0x80 ≤ b2 ∧ b2 < 0xC0) ∧ (0x80 ≤ b3 ∧ b3 < 0xC0) then
            (utf8Decode rest3).map
              (fun cs => Char.ofNat ((b - 0xE0) * 4096 + (b2 - 0x80) * 64 + (b3 - 0x80)) :: cs)
          else none
    else if b < 0xF8 then
      match rest with
      | [] => none
      | b2 :: rest2 =>
        match rest2 with
        | [] => none
        | b3 :: rest3 =>
          match rest3 with
          | [] => none
          | b4 :: rest4 =>
            if ((0x80 ≤ b2 ∧ b2 < 0xC0) ∧ 0x80 ≤ b3 ∧ b3 < 0xC0) ∧ 0x80 ≤ b4 ∧ b4 < 0xC0 then
              (utf8Decode rest4).map
                (fun cs => Char.ofNat
                  ((b - 0xF0) * 262144 + (b2 - 0x80) * 4096 + (b3 - 0x80) * 64 + (b4 - 0x80)) :: cs)
            else none
    else none

/-- The JS decodeURIComponent function. -/
def decodeURIComponentL (l : List Char) : Option (List Char) :=
  (percentDecodeBytes l).bind utf8Decode

/-- RFC 6265 whitespace (space and horizontal tab). -/
def owsp (c : Char) : Bool := c = ' ' || c = Char.ofNat 9

/-- Trimming of RFC 6265 whitespace from both ends. -/
def trimOWS (l : List Char) : List Char := trimBy owsp l

/-- A browser cookie jar: name/value entries in order. -/
def CookieJar := List (List Char × List Char)

/-- Update of the first entry with the given name, or append. -/
def updateJar : List (List Char × List Char) → List Char → List Char →
    List (List Char × List Char)
  | [], n, v => [(n, v)]
  | (n0, v0) :: rest, n, v =>
    if n0 = n then (n, v) :: rest else (n0, v0) :: updateJar rest n v

/-- Browser processing of an assignment to document.cookie, per RFC 6265
section 5.2: the part before the first semicolon is split at its first
equals sign into name and value, both trimmed; without an equals sign the
assignment is ignored. -/
def browserSetCookie (jar : List (List Char × List Char)) (str : List Char) :
    List (List Char × List Char) :=
  let pair := str.takeWhile (fun c => c ≠ ';')
  if '=' ∈ pair then
    updateJar jar (trimOWS (pair.takeWhile (fun c => c ≠ '=')))
      (trimOWS ((pair.dropWhile (fun c => c ≠ '=')).drop 1))
  else jar

/-- Serialization of the jar as read from document.cookie: entries joined
by a semicolon and a space. -/
def jarChars : List (List Char × List Char) → List Char
  | [] => []
  | (n, v) :: rest =>
    n ++ ('=' :: (v ++ (if rest = [] then [] else ';' :: ' ' :: jarChars rest)))

/-- The string written to document.cookie by cookieUtils.set (line 15);
the serialized expiry date is abstracted as an arbitrary string. -/
def setCookieString (name value expiresStr : List Char) : List Char :=
  name ++ ('=' :: (encodeURIComponentL value ++
    (";expires=".data ++ expiresStr ++ ";path=/;secure;samesite=strict".data)))

/-- The cookieUtils.set function (lines 9-16) acting on the browser jar. -/
def cookieSet (jar : List (List Char × List Char)) (name value expiresStr : List Char) :
    List (List Char × List Char) :=
  browserSetCookie jar (setCookieString name value expiresStr)

/-- The JS "a".split(";") on character lists. -/
def splitChar (sep : Char) : List Char → List (List Char)
  | [] => [[]]
  | c :: rest =>
    if c = sep then [] :: splitChar sep rest
    else
      match splitChar sep rest with
      | [] => [[c]]
      | g :: gs => (c :: g) :: gs

/-- The loop of cookieUtils.get (lines 27-32): trim each piece, return the
decoded remainder of the first piece starting with nameEQ. -/
def getFromPieces (nameEQ : List Char) : List (List Char) → Option (List Char)
  | [] => none
  | piece :: rest =>
    let c := jsTrimL piece
    if c.take nameEQ.length = nameEQ then decodeURIComponentL (c.drop nameEQ.length)
    else getFromPieces nameEQ rest

/-- The cookieUtils.get function (lines 21-35) reading the given
document.cookie string. -/
def cookieGet (doc : List Char) (name : List Char) : Option (List Char) :=
  getFromPieces (name ++ ['=']) (splitChar ';' doc)

/-- The cookieUtils.exists function (lines 49-51). -/
def cookieHas (doc : List Char) (name : List Char) : Bool :=
  (cookieGet doc name).isSome

/-! ## Polling loop lemmas -/

/-- The number of polls performed is bounded by the fuel. -/
theorem pollLoopGo_polls_le (poll : Nat → Option Prediction) :
    ∀ (fuel : Nat) (p : Prediction) (attempts : Nat),
      (pollLoopGo poll p attempts fuel).2 ≤ fuel := by
  intro fuel
  induction fuel with
  | zero =>
    intro p attempts
    unfold pollLoopGo
    split <;> simp
  | succ n ih =>
    intro p attempts
    unfold pollLoopGo
    split
    · cases hp : poll attempts with
      | none => simp
      | some r => simpa using Nat.succ_le_succ (ih r (attempts + 1))
    · simp

/-- When every poll returns a prediction that is still starting or
processing, the loop burns all its fuel and times out. -/
theorem pollLoopGo_timeout (poll : Nat → Option Prediction)
    (hpoll : ∀ i, ∃ r, poll i = some r ∧ isPolling r.status = true) :
    ∀ (fuel : Nat) (p : Prediction) (attempts : Nat), isPolling p.status = true →
      pollLoopGo poll p attempts fuel = (.timeout, fuel) := by
  intro fuel
  induction fuel with
  | zero =>
    intro p attempts hp
    simp [pollLoopGo, hp]
  | succ n ih =>
    intro p attempts hp
    obtain ⟨r, hr, hrs⟩ := hpoll attempts
    simp [pollLoopGo, hp, hr, ih r (attempts + 1) hrs]

/-- A loop exit with a terminal prediction only happens when that
prediction's status fails the loop guard. -/
theorem pollLoopGo_terminal_not_polling (poll : Nat → Option Prediction) :
    ∀ (fuel : Nat) (p : Prediction) (attempts : Nat) (q : Prediction),
      (pollLoopGo poll p attempts fuel).1 = .terminal q → isPolling q.status = false := by
  intro fuel
  induction fuel with
  | zero =>
    intro p attempts q h
    unfold pollLoopGo at h
    by_cases hp : isPolling p.status
    · simp [hp] at h
    · simp [hp] at h
      rw [← h]
      simpa using hp
  | succ n ih =>
    intro p attempts q h
    unfold pollLoopGo at h
    by_cases hp : isPolling p.status
    · simp [hp] at h
      cases hpoll : poll attempts with
      | none => rw [hpoll] at h; simp at h
      | some r =>
        rw [hpoll] at h
        exact ih r (attempts + 1) q h
    · simp [hp] at h
      rw [← h]
      simpa using hp

/-- A prediction that fails the loop guard exits immediately, with no
polls performed. -/
theorem pollLoopGo_exit (poll : Nat → Option Prediction) (p : Prediction)
    (attempts fuel : Nat) (h : isPolling p.status = false) :
    pollLoopGo poll p attempts fuel = (.terminal p, 0) := by
  cases fuel <;> simp [pollLoopGo, h]

/-- With fuel left, a prediction that passes the loop guard causes at
least one poll. -/
theorem pollLoopGo_polls_pos (poll : Nat → Option Prediction) (p : Prediction)
    (attempts n : Nat) (h : isPolling p.status = true) :
    1 ≤ (pollLoopGo poll p attempts (n + 1)).2 := by
  unfold pollLoopGo
  simp only [h, if_true]
  cases poll attempts <;> simp

/-- Claim C1: the enhance-image polling loop performs at most 60 polls, and
when the prediction is still starting or processing at the 60-poll bound the
handler stops and returns the 408 timeout error, so the loop terminates
within 60 iterations for every sequence of statuses returned by the
external API. -/
theorem c1_poll_bound_and_timeout :
    (∀ (poll : Nat → Option Prediction) (p : Prediction), (pollLoop poll p).2 ≤ 60) ∧
    (∀ (poll : Nat → Option Prediction) (p : Prediction),
      isPolling p.status = true →
      (∀ i, ∃ r, poll i = some r ∧ isPolling r.status = true) →
      pollLoop poll p = (.timeout, 60)) ∧
    (∀ (f : FileData) (customApiKey envKey : Option String) (renv : ReplicateEnv)
        (key : String) (p : Prediction),
      validatedApiKey customApiKey envKey = some key →
      renv.create (enhanceDataUri f) = .ok p →
      isPolling p.status = true →
      (∀ i, ∃ r, renv.poll i = some r ∧ isPolling r.status = true) →
      enhanceHandler (some f) customApiKey envKey renv =
        (.err 408 "Enhancement timed out. Please try again.", some key)) := by
  refine ⟨fun poll p => pollLoopGo_polls_le poll maxAttempts p 0, fun poll p hp hpoll =>
    pollLoopGo_timeout poll hpoll maxAttempts p 0 hp, ?_⟩
  intro f customApiKey envKey renv key p hkey hcreate hp hpoll
  have hloop : pollLoop renv.poll p = (.timeout, 60) :=
    pollLoopGo_timeout renv.poll hpoll maxAttempts p 0 hp
  simp [enhanceHandler, hkey, hcreate, hloop]

/-- Witness for claim C1 at a concrete always-processing environment. -/
theorem c1_poll_bound_and_timeout_witness :
    pollLoop (fun _ => some ⟨"id", "processing", none, none⟩)
      ⟨"id", "starting", none, none⟩ = (.timeout, 60) :=
  c1_poll_bound_and_timeout.2.1 _ _ (by decide) (fun _ => ⟨_, rfl, by decide⟩)

/-- Claim C2 counterexample: a prediction whose status is "canceled" exits
the polling loop without hitting the timeout, yet its terminal status is
neither "succeeded" nor "failed". -/
theorem c2_counterexample :
    pollLoop (fun _ => none) ⟨"id", "canceled", none, none⟩ =
      (.terminal ⟨"id", "canceled", none, none⟩, 0) ∧
    ¬("canceled" = "succeeded" ∨ "canceled" = "failed") := by decide

/-- Claim C2 (amended): the loop polls exactly while the status is
starting or processing: an exit with a terminal prediction implies its
status is neither starting nor processing (though it need not be succeeded
or failed), a prediction failing the guard exits at once with no polls, and
a prediction passing the guard is always polled at least once. -/
theorem c2_amended_poll_guard :
    ∀ (poll : Nat → Option Prediction) (p : Prediction),
      (∀ q n, pollLoop poll p = (.terminal q, n) →
        q.status ≠ "starting" ∧ q.status ≠ "processing") ∧
      (isPolling p.status = false → pollLoop poll p = (.terminal p, 0)) ∧
      (isPolling p.status = true → 1 ≤ (pollLoop poll p).2) := by
  intro poll p
  refine ⟨?_, fun h => pollLoopGo_exit poll p 0 maxAttempts h,
    fun h => pollLoopGo_polls_pos poll p 0 59 h⟩
  intro q n h
  have h1 : (pollLoopGo poll p 0 maxAttempts).1 = .terminal q := by
    rw [show pollLoopGo poll p 0 maxAttempts = pollLoop poll p from rfl, h]
  have h2 := pollLoopGo_terminal_not_polling poll maxAttempts p 0 q h1
  simpa [isPolling, not_or] using h2

/-- Witness for the amended claim C2 at a concrete terminal status. -/
theorem c2_amended_poll_guard_witness :
    pollLoop (fun _ => none) ⟨"id", "succeeded", none, some "u"⟩ =
      (.terminal ⟨"id", "succeeded", none, some "u"⟩, 0) :=
  (c2_amended_poll_guard (fun _ => none) ⟨"id", "succeeded", none, some "u"⟩).2.1 (by decide)

/-! ## API key selection lemmas -/

/-- A custom key that is non-blank after trimming wins. -/
theorem validatedApiKey_custom (c : String) (envKey : Option String)
    (h : jsTrimString c ≠ "") :
    validatedApiKey (some c) envKey = some (jsTrimString c) := by
  have hc : c ≠ "" := by
    intro hc
    apply h
    rw [hc]
    rfl
  simp [validatedApiKey, chooseApiKey, hc, h]

/-- Absence of a usable custom key falls back to the environment key. -/
theorem chooseApiKey_env (customApiKey envKey : Option String)
    (hcust : customApiKey = none ∨ ∃ c, customApiKey = some c ∧ jsTrimString c = "") :
    chooseApiKey customApiKey envKey = envKey := by
  rcases hcust with h | ⟨c, hc, htrim⟩
  · rw [h]; rfl
  · rw [hc]
    simp [chooseApiKey, htrim]

/-- With any successful key resolution, the enhance handler authenticates
all its Replicate requests with that key. -/
theorem enhanceHandler_key_used (f : FileData) (customApiKey envKey : Option String)
    (renv : ReplicateEnv) (key : String)
    (h : validatedApiKey customApiKey envKey = some key) :
    (enhanceHandler (some f) customApiKey envKey renv).2 = some key := by
  simp only [enhanceHandler, h]
  cases renv.create (enhanceDataUri f) with
  | httpError s d => rfl
  | ok pred =>
    rcases hl : pollLoop renv.poll pred with ⟨o, n⟩
    cases o <;> simp [hl]

/-- With a truthy prompt and a successful key resolution, the generate
handler calls the Gemini API with that key. -/
theorem genHandler_key_used (p : String) (imageCount : Nat) (files : Nat → Option FileData)
    (customApiKey envKey : Option String) (stream : List GPart → List Chunk) (key : String)
    (hp : p ≠ "") (h : validatedApiKey customApiKey envKey = some key) :
    ∃ parts, (genHandler (some p) imageCount files customApiKey envKey stream).2 =
      some (key, parts) := by
  have ht : jsStrTruthy (some p) = true := by simp [jsStrTruthy, hp]
  simp only [genHandler, ht, h, Bool.not_true, Bool.false_eq_true, if_false]
  cases processChunks initialStream
      (stream (GPart.text (jsStrOr (some p) "") :: buildImageParts files imageCount)) with
  | error e => exact ⟨_, rfl⟩
  | ok st => exact ⟨_, rfl⟩

/-- Claim C3: both route handlers use the trimmed custom key when it is
non-blank after trimming, fall back to the environment key otherwise, and
answer 400 with the no-key error, without any vendor request, when neither
source yields a key. -/
theorem c3_api_key_selection :
    ∀ (customApiKey envKey : Option String) (f : FileData) (renv : ReplicateEnv)
      (p : String) (imageCount : Nat) (files : Nat → Option FileData)
      (stream : List GPart → List Chunk),
      p ≠ "" →
      ((∀ c, customApiKey = some c → jsTrimString c ≠ "" →
        (enhanceHandler (some f) customApiKey envKey renv).2 = some (jsTrimString c) ∧
        ∃ parts, (genHandler (some p) imageCount files customApiKey envKey stream).2 =
          some (jsTrimString c, parts)) ∧
      ((customApiKey = none ∨ ∃ c, customApiKey = some c ∧ jsTrimString c = "") →
        (∀ e, envKey = some e → e ≠ "" →
          (enhanceHandler (some f) customApiKey envKey renv).2 = some e ∧
          ∃ parts, (genHandler (some p) imageCount files customApiKey envKey stream).2 =
            some (e, parts)) ∧
        ((envKey = none ∨ envKey = some "") →
          enhanceHandler (some f) customApiKey envKey renv =
            (.err 400
              "No API key available. Please set REPLICATE_API_TOKEN or provide a custom key.",
              none) ∧
          genHandler (some p) imageCount files customApiKey envKey stream =
            (.jsonError 400
              "No API key available. Please set GEMINI_API_KEY or provide a custom key.",
              none)))) := by
  intro customApiKey envKey f renv p imageCount files stream hp
  refine ⟨?_, ?_⟩
  · intro c hc htrim
    subst hc
    have hv := validatedApiKey_custom c envKey htrim
    exact ⟨enhanceHandler_key_used f _ envKey renv _ hv,
      genHandler_key_used p imageCount files _ envKey stream _ hp hv⟩
  · intro hcust
    have hch := chooseApiKey_env customApiKey envKey hcust
    refine ⟨?_, ?_⟩
    · intro e he hene
      have hv : validatedApiKey customApiKey envKey = some e := by
        unfold validatedApiKey
        rw [hch, he]
        simp [hene]
      exact ⟨enhanceHandler_key_used f customApiKey envKey renv e hv,
        genHandler_key_used p imageCount files customApiKey envKey stream e hp hv⟩
    · intro henv
      have hv : validatedApiKey customApiKey envKey = none := by
        unfold validatedApiKey
        rw [hch]
        rcases henv with h | h <;> simp [h]
      have ht : jsStrTruthy (some p) = true := by simp [jsStrTruthy, hp]
      constructor
      · simp [enhanceHandler, hv]
      · simp [genHandler, ht, hv]

/-- Witness for claim C3 at a concrete custom key with surrounding blanks. -/
theorem c3_api_key_selection_witness :
    (enhanceHandler (some ⟨"image/png", [1]⟩) (some " k ") none
        ⟨fun _ => .httpError 500 "x", fun _ => none, fun _ => none⟩).2 =
      some (jsTrimString " k ") ∧
    ∃ parts, (genHandler (some "hi") 0 (fun _ => none) (some " k ") none (fun _ => [])).2 =
      some (jsTrimString " k ", parts) :=
  (c3_api_key_selection (some " k ") none ⟨"image/png", [1]⟩
    ⟨fun _ => .httpError 500 "x", fun _ => none, fun _ => none⟩ "hi" 0 (fun _ => none)
    (fun _ => []) (by decide)).1 " k " rfl (by decide)

/-- Claim C5: the generate handler answers 400 "Prompt is required", with
no Gemini request, exactly when the prompt is absent or empty. -/
theorem c5_prompt_required :
    ∀ (prompt : Option String) (imageCount : Nat) (files : Nat → Option FileData)
      (customApiKey envKey : Option String) (stream : List GPart → List Chunk),
      ((prompt = none ∨ prompt = some "") →
        genHandler prompt imageCount files customApiKey envKey stream =
          (.jsonError 400 "Prompt is required", none)) ∧
      (∀ p, prompt = some p → p ≠ "" →
        (genHandler prompt imageCount files customApiKey envKey stream).1 ≠
          .jsonError 400 "Prompt is required") := by
  intro prompt imageCount files customApiKey envKey stream
  constructor
  · intro h
    rcases h with h | h <;> subst h <;> simp [genHandler, jsStrTruthy]
  · intro p hp hpe
    subst hp
    have ht : jsStrTruthy (some p) = true := by simp [jsStrTruthy, hpe]
    simp only [genHandler, ht, Bool.not_true, Bool.false_eq_true, if_false]
    cases hv : validatedApiKey customApiKey envKey with
    | none => simp
    | some k =>
      cases hc : processChunks initialStream
          (stream (GPart.text (jsStrOr (some p) "") :: buildImageParts files imageCount)) with
      | error e => simp [hc]
      | ok st => simp [hc]

/-- Witness for claim C5 at an empty prompt. -/
theorem c5_prompt_required_witness :
    genHandler (some "") 0 (fun _ => none) none none (fun _ => []) =
      (.jsonError 400 "Prompt is required", none) :=
  (c5_prompt_required (some "") 0 (fun _ => none) none none (fun _ => [])).1 (Or.inr rfl)

/-- Claim C7: the enhance handler yields the success body exactly when the
terminal prediction has status succeeded with a truthy output whose
download succeeds; a failed status yields a 500 with the prediction's
error message or the default; every other terminal outcome yields an error
with a non-2xx status. -/
theorem c7_enhance_response_shape :
    ∀ (p : Prediction) (fetchImage : String → Option (List Nat)),
      ((∃ d m u, finishEnhance p fetchImage = .success d m u) ↔
        (p.status = "succeeded" ∧ ∃ url, p.output = some url ∧ url ≠ "" ∧
          (fetchImage url).isSome = true)) ∧
      (p.status = "failed" →
        finishEnhance p fetchImage = .err 500 (jsStrOr p.error "Enhancement failed")) ∧
      (∀ url bytes, p.status = "succeeded" → p.output = some url → url ≠ "" →
        fetchImage url = some bytes →
        finishEnhance p fetchImage = .success (base64Encode bytes) "image/png" url) ∧
      (∀ st msg, finishEnhance p fetchImage = .err st msg → 400 ≤ st) ∧
      (∀ (imageFile : Option FileData) (customApiKey envKey : Option String)
          (renv : ReplicateEnv) (d m u : String),
        (enhanceHandler imageFile customApiKey envKey renv).1 = .success d m u →
        ∃ f key pred q n, imageFile = some f ∧
          validatedApiKey customApiKey envKey = some key ∧
          renv.create (enhanceDataUri f) = .ok pred ∧
          pollLoop renv.poll pred = (.terminal q, n) ∧
          finishEnhance q renv.fetchImage = .success d m u) := by
  intro p fetchImage
  refine ⟨?_, ?_, ?_, ?_, ?_⟩
  · constructor
    · intro ⟨d, m, u, h⟩
      unfold finishEnhance at h
      by_cases hf : p.status = "failed"
      · rw [if_pos hf] at h
        exact absurd h (by simp)
      · rw [if_neg hf] at h
        cases ho : p.output with
        | none =>
          simp only [ho] at h
          exact absurd h (by simp)
        | some url =>
          simp only [ho] at h
          by_cases hs : p.status = "succeeded" ∧ url ≠ ""
          · rw [if_pos hs] at h
            cases hfi : fetchImage url with
            | none =>
              simp only [hfi] at h
              exact absurd h (by simp)
            | some bytes =>
              exact ⟨hs.1, url, rfl, hs.2, by rw [hfi]; rfl⟩
          · rw [if_neg hs] at h
            exact absurd h (by simp)
    · intro ⟨hs, url, ho, hu, hfi⟩
      cases hfb : fetchImage url with
      | none => rw [hfb] at hfi; simp at hfi
      | some bytes =>
        refine ⟨base64Encode bytes, "image/png", url, ?_⟩
        unfold finishEnhance
        rw [hs, ho]
        simp [hu, hfb]
  · intro hf
    unfold finishEnhance
    simp [hf]
  · intro url bytes hs ho hu hfi
    unfold finishEnhance
    rw [hs, ho]
    simp [hu, hfi]
  · intro st msg h
    unfold finishEnhance at h
    by_cases hf : p.status = "failed"
    · rw [if_pos hf] at h
      injection h with h1 h2
      omega
    · rw [if_neg hf] at h
      cases ho : p.output with
      | none =>
        simp only [ho] at h
        injection h with h1 h2
        omega
      | some url =>
        simp only [ho] at h
        by_cases hs : p.status = "succeeded" ∧ url ≠ ""
        · rw [if_pos hs] at h
          cases hfi : fetchImage url with
          | none =>
            simp only [hfi] at h
            injection h with h1 h2
            omega
          | some bytes =>
            simp only [hfi] at h
            exact absurd h (by simp)
        · rw [if_neg hs] at h
          injection h with h1 h2
          omega
  · intro imageFile customApiKey envKey renv d m u h
    cases imageFile with
    | none => simp [enhanceHandler] at h
    | some f =>
      cases hv : validatedApiKey customApiKey envKey with
      | none => simp [enhanceHandler, hv] at h
      | some key =>
        cases hcr : renv.create (enhanceDataUri f) with
        | httpError s dd => simp [enhanceHandler, hv, hcr] at h
        | ok pred =>
          rcases hl : pollLoop renv.poll pred with ⟨o, n⟩
          cases o with
          | timeout => simp [enhanceHandler, hv, hcr, hl] at h
          | pollFailed => simp [enhanceHandler, hv, hcr, hl] at h
          | terminal q =>
            refine ⟨f, key, pred, q, n, rfl, rfl, hcr, ?_, ?_⟩
            · first
              | rfl
              | exact hl
            · simpa [enhanceHandler, hv, hcr, hl] using h

/-- Witness for claim C7 at a concrete succeeded prediction. -/
theorem c7_enhance_response_shape_witness :
    finishEnhance ⟨"id", "succeeded", none, some "u"⟩ (fun _ => some [1, 2]) =
      .success (base64Encode [1, 2]) "image/png" "u" :=
  (c7_enhance_response_shape ⟨"id", "succeeded", none, some "u"⟩
    (fun _ => some [1, 2])).2.2.1 "u" [1, 2] rfl rfl (by decide) rfl

/-! ## Viewer transform lemmas -/

/-- Each zoom operation keeps the scale inside the range 0.1 to 10. -/
theorem applyZoom_scale_mem (t : Transform) (op : ZoomOp)
    (h1 : 1/10 ≤ t.scale) (h2 : t.scale ≤ 10) :
    1/10 ≤ (applyZoom t op).scale ∧ (applyZoom t op).scale ≤ 10 := by
  cases op with
  | zin =>
    refine ⟨le_min (by linarith) (by norm_num), min_le_right _ _⟩
  | zout =>
    refine ⟨le_trans (by norm_num) (le_max_right _ _), max_le ?_ (by norm_num)⟩
    rw [div_le_iff₀ (by norm_num : (0 : ℚ) < 1.5)]
    linarith
  | wheel d =>
    refine ⟨le_trans (by norm_num) (le_max_left _ _),
      max_le (by norm_num) (le_trans (min_le_left _ _) (by norm_num))⟩
  | pinch r =>
    refine ⟨le_trans (by norm_num) (le_max_left _ _),
      max_le (by norm_num) (le_trans (min_le_left _ _) (by norm_num))⟩

/-- A fold of zoom operations preserves the scale range. -/
theorem foldZooms_scale_mem :
    ∀ (ops : List ZoomOp) (t : Transform), 1/10 ≤ t.scale → t.scale ≤ 10 →
      1/10 ≤ (ops.foldl applyZoom t).scale ∧ (ops.foldl applyZoom t).scale ≤ 10 := by
  intro ops
  induction ops with
  | nil => intro t h1 h2; exact ⟨h1, h2⟩
  | cons op rest ih =>
    intro t h1 h2
    have h := applyZoom_scale_mem t op h1 h2
    simpa using ih (applyZoom t op) h.1 h.2

/-- Claim C8: zoomIn computes min of 1.5 times the scale and 10, zoomOut
the max of the scale over 1.5 and 0.1, wheel and pinch clamp the multiplied
scale into the range; every zoom operation preserves 0.1 <= scale <= 10 and
every sequence of them from the initial scale 1 stays in the range. -/
theorem c8_zoom_scale_invariant :
    (∀ t : Transform,
      (zoomIn t).scale = min (t.scale * 1.5) 10 ∧
      (zoomOut t).scale = max (t.scale / 1.5) 0.1 ∧
      (∀ d, (wheelZoom t d).scale =
        max 0.1 (min 10 (t.scale * (if d > 0 then 0.9 else 1.1)))) ∧
      (∀ r, (pinchZoom t r).scale = max 0.1 (min 10 (t.scale * r)))) ∧
    (∀ (t : Transform) (op : ZoomOp), 1/10 ≤ t.scale → t.scale ≤ 10 →
      1/10 ≤ (applyZoom t op).scale ∧ (applyZoom t op).scale ≤ 10) ∧
    (∀ ops : List ZoomOp, 1/10 ≤ (runZooms ops).scale ∧ (runZooms ops).scale ≤ 10) :=
  ⟨fun _ => ⟨rfl, rfl, fun _ => rfl, fun _ => rfl⟩, applyZoom_scale_mem,
    fun ops => foldZooms_scale_mem ops initialTransform (by norm_num [initialTransform])
      (by norm_num [initialTransform])⟩

/-- Witness for claim C8 at the initial transform and a zoom-in. -/
theorem c8_zoom_scale_invariant_witness :
    1/10 ≤ (applyZoom initialTransform .zin).scale ∧
    (applyZoom initialTransform .zin).scale ≤ 10 :=
  c8_zoom_scale_invariant.2.1 initialTransform .zin (by norm_num [initialTransform])
    (by norm_num [initialTransform])

/-- Claim C10: rotate maps the rotation to (rotation + 90) mod 360 leaving
every other field unchanged, and each flip toggles exactly its own flag. -/
theorem c10_rotate_flip_frame :
    ∀ t : Transform, 0 ≤ t.rotation →
      rotate t = { t with rotation := (t.rotation + 90) % 360 } ∧
      flipHorizontal t = { t with flipX := !t.flipX } ∧
      flipVertical t = { t with flipY := !t.flipY } := by
  intro t ht
  refine ⟨?_, rfl, rfl⟩
  unfold rotate
  rw [Int.tmod_eq_emod (by omega) (by omega)]

/-- Witness for claim C10 at a concrete rotation of 270 degrees. -/
theorem c10_rotate_flip_frame_witness :
    rotate ⟨1, 0, 0, 270, false, false⟩ =
      { (⟨1, 0, 0, 270, false, false⟩ : Transform) with rotation := (270 + 90) % 360 } :=
  (c10_rotate_flip_frame ⟨1, 0, 0, 270, false, false⟩ (by decide)).1

/-! ## Stream-processing and cost lemmas -/

/-- The guard on line 78: a chunk takes part in the loop body exactly when
it has a candidate whose content has a parts array. -/
def passesGuard (ch : Chunk) : Bool :=
  match ch.candidates with
  | some (c0 :: _) =>
    match c0.content with
    | some content => content.parts.isSome
    | none => false
  | _ => false

/-- Appending chunk text does not touch the captured usage metadata. -/
theorem appendChunkText_usage (st : StreamState) (t : Option String) :
    (appendChunkText st t).usage = st.usage := by
  unfold appendChunkText
  cases t with
  | none => rfl
  | some s => by_cases hs : s = "" <;> simp [hs]

/-- Usage metadata evolves only through guard-passing chunks. -/
theorem stepChunk_usage (st : StreamState) (ch : Chunk) (st1 : StreamState)
    (h : stepChunk st ch = .ok st1) :
    st1.usage = if passesGuard ch = true then
      (match ch.usageMetadata with | some u => some u | none => st.usage)
    else st.usage := by
  unfold stepChunk at h
  cases hc : ch.candidates with
  | none =>
    simp only [hc] at h
    injection h with h1
    simp [passesGuard, hc, ← h1]
  | some cands =>
    cases cands with
    | nil => simp [hc] at h
    | cons c0 crest =>
      simp only [hc] at h
      cases hct : c0.content with
      | none =>
        simp only [hct] at h
        injection h with h1
        simp [passesGuard, hc, hct, ← h1]
      | some content =>
        simp only [hct] at h
        cases hpt : content.parts with
        | none =>
          simp only [hpt] at h
          injection h with h1
          simp [passesGuard, hc, hct, hpt, ← h1]
        | some parts =>
          simp only [hpt] at h
          have hg : passesGuard ch = true := by simp [passesGuard, hc, hct, hpt]
          rw [hg, if_pos rfl]
          cases parts with
          | nil =>
            injection h with h1
            rw [← h1, appendChunkText_usage]
          | cons p0 prest =>
            cases hin : p0.inlineData with
            | some idata =>
              simp only [hin] at h
              injection h with h1
              rw [← h1]
            | none =>
              simp only [hin] at h
              injection h with h1
              rw [← h1, appendChunkText_usage]

/-- The captured usage is absent exactly when no guard-passing chunk
carried usage metadata. -/
theorem processChunks_usage_none :
    ∀ (chunks : List Chunk) (st0 st1 : StreamState),
      processChunks st0 chunks = .ok st1 →
      (st1.usage = none ↔
        (st0.usage = none ∧ ∀ ch ∈ chunks, passesGuard ch = true → ch.usageMetadata = none)) := by
  intro chunks
  induction chunks with
  | nil =>
    intro st0 st1 h
    injection h with h1
    subst h1
    simp
  | cons ch rest ih =>
    intro st0 st1 h
    unfold processChunks at h
    cases hs : stepChunk st0 ch with
    | error e => rw [hs] at h; exact absurd h (by simp)
    | ok stm =>
      rw [hs] at h
      have hu := stepChunk_usage st0 ch stm hs
      rw [ih stm st1 h, hu]
      simp only [List.mem_cons, forall_eq_or_imp]
      by_cases hg : passesGuard ch = true
      · cases hum : ch.usageMetadata with
        | none => simp [hg, hum]
        | some u => simp [hg, hum]
      · simp [hg]

/-- Claim C4 counterexample: a stream whose only chunk carries usage
metadata but has no candidates yields a 200 response with a null cost, even
though a streamed chunk carried usage metadata. -/
theorem c4_counterexample :
    genHandler (some "hi") 0 (fun _ => none) none (some "k")
        (fun _ => [⟨none, some ⟨some 100, some 50, none, none⟩, none⟩]) =
      (.ok "" none none, some ("k", [.text "hi"])) ∧
    (⟨none, some ⟨some 100, some 50, none, none⟩, none⟩ : Chunk).usageMetadata ≠ none := by
  decide

/-- Claim C4 (amended): in a 200 response the cost is null exactly when no
chunk passing the content guard on line 78 carried usage metadata, and
otherwise the cost object computed from the last captured usage satisfies
the claimed pricing equations. -/
theorem c4_amended_cost :
    (∀ (chunks : List Chunk) (st : StreamState),
      processChunks initialStream chunks = .ok st →
      ((st.usage = none ↔ ∀ ch ∈ chunks, passesGuard ch = true → ch.usageMetadata = none) ∧
       (st.usage = none → computeCost st.usage st.imageData = none) ∧
       (∀ u, st.usage = some u →
         ∃ c, computeCost st.usage st.imageData = some c ∧
           c.inputCost = (jsNumOr u.promptTokenCount 0 - imageTokensOf u) / 1000000 * 0.30 ∧
           c.outputCost = jsNumOr u.candidatesTokenCount 0 / 1000000 * 2.50 ∧
           c.imageCost = (if st.imageData.isSome then (0.04 : ℚ) else 0) ∧
           c.totalCost = c.inputCost + c.outputCost + c.imageCost ∧
           c.formattedCost = "$" ++ toFixed4 c.totalCost))) ∧
    (∀ (prompt : Option String) (imageCount : Nat) (files : Nat → Option FileData)
        (customApiKey envKey : Option String) (stream : List GPart → List Chunk)
        (t : String) (img : Option (String × String)) (co : Option Cost)
        (tr : Option (String × List GPart)),
      genHandler prompt imageCount files customApiKey envKey stream = (.ok t img co, tr) →
      ∃ st, processChunks initialStream
          (stream (GPart.text (jsStrOr prompt "") :: buildImageParts files imageCount)) =
          .ok st ∧ co = computeCost st.usage st.imageData ∧ img = st.imageData) := by
  constructor
  · intro chunks st h
    refine ⟨?_, ?_, ?_⟩
    · rw [processChunks_usage_none chunks initialStream st h]
      simp [initialStream]
    · intro hu
      rw [hu]
      rfl
    · intro u hu
      rw [hu]
      refine ⟨_, rfl, rfl, rfl, ?_, rfl, rfl⟩
      cases st.imageData <;> norm_num [computeCost]
  · intro prompt imageCount files customApiKey envKey stream t img co tr h
    unfold genHandler at h
    cases ht : jsStrTruthy prompt with
    | false => simp only [ht] at h; exact absurd h (by simp)
    | true =>
      simp only [ht, Bool.not_true, Bool.false_eq_true, if_false] at h
      cases hv : validatedApiKey customApiKey envKey with
      | none => simp only [hv] at h; exact absurd h (by simp)
      | some key =>
        simp only [hv] at h
        cases hc : processChunks initialStream
            (stream (GPart.text (jsStrOr prompt "") :: buildImageParts files imageCount)) with
        | error e => simp only [hc] at h; exact absurd h (by simp)
        | ok st =>
          simp only [hc, Prod.mk.injEq, GenResponse.ok.injEq] at h
          exact ⟨st, rfl, h.1.2.2.symm, h.1.2.1.symm⟩

/-- Witness for the amended claim C4 at the empty stream. -/
theorem c4_amended_cost_witness :
    computeCost initialStream.usage initialStream.imageData = none :=
  ((c4_amended_cost.1 [] initialStream rfl).2.1) rfl

/-! ## Base64 round-trip lemmas -/

/-- Decoding inverts encoding on each six-bit group. -/
theorem b64Val_b64Char : ∀ n < 64, b64Val (b64Char n) = some n := by decide

/-- No alphabet character is the padding character. -/
theorem b64Char_ne_pad : ∀ n, b64Char n ≠ Char.ofNat 61 := by
  intro n
  by_cases h : n < 64
  · exact (by decide : ∀ m < 64, b64Char m ≠ Char.ofNat 61) n h
  · unfold b64Char
    rw [List.getD_eq_default]
    · decide
    · have hlen : b64Alphabet.length = 64 := by decide
      omega

/-- Base64 decoding inverts base64 encoding on byte lists. -/
theorem base64_roundtrip : ∀ (bs : List Nat), (∀ x ∈ bs, x < 256) →
    base64DecChars (base64Chars bs) = some bs
  | [], _ => rfl
  | [a], h => by
    have ha : a < 256 := h a (by simp)
    have h1 := b64Val_b64Char (a / 4) (by omega)
    have h2 := b64Val_b64Char (a % 4 * 16) (by omega)
    simp only [base64Chars, base64DecChars]
    simp [h1, h2]
    omega
  | [a, b], h => by
    have ha : a < 256 := h a (by simp)
    have hb : b < 256 := h b (by simp)
    have h1 := b64Val_b64Char (a / 4) (by omega)
    have h2 := b64Val_b64Char (a % 4 * 16 + b / 16) (by omega)
    have h3 := b64Val_b64Char (b % 16 * 4) (by omega)
    simp only [base64Chars, base64DecChars]
    simp [h1, h2, h3, b64Char_ne_pad]
    omega
  | a :: b :: c :: rest, h => by
    have ih := base64_roundtrip rest (fun x hx => h x (by simp [hx]))
    have ha : a < 256 := h a (by simp)
    have hb : b < 256 := h b (by simp)
    have hc : c < 256 := h c (by simp)
    have h1 := b64Val_b64Char (a / 4) (by omega)
    have h2 := b64Val_b64Char (a % 4 * 16 + b / 16) (by omega)
    have h3 := b64Val_b64Char (b % 16 * 4 + c / 64) (by omega)
    have h4 := b64Val_b64Char (c % 64) (by omega)
    simp only [base64Chars, base64DecChars]
    simp [h1, h2, h3, h4, b64Char_ne_pad, ih]
    omega

/-- Claim C6: each uploaded file is embedded in the vendor payload as
base64 inline data with its MIME type, and decoding the embedded base64
recovers exactly the original bytes. -/
theorem c6_inline_base64 :
    ∀ (f : FileData), (∀ b ∈ f.bytes, b < 256) →
      base64Decode (base64Encode f.bytes) = some f.bytes ∧
      enhanceDataUri f = "data:" ++ f.mimeType ++ ";base64," ++ base64Encode f.bytes ∧
      ∀ (files : Nat → Option FileData) (imageCount i : Nat),
        i < imageCount → files i = some f →
        GPart.inline (base64Encode f.bytes) f.mimeType ∈ buildImageParts files imageCount := by
  intro f hf
  refine ⟨base64_roundtrip f.bytes hf, rfl, ?_⟩
  intro files imageCount i hi hfi
  rw [buildImageParts, List.mem_filterMap]
  exact ⟨i, List.mem_range.mpr hi, by rw [hfi]; rfl⟩

/-- Witness for claim C6 at a concrete two-byte file. -/
theorem c6_inline_base64_witness :
    base64Decode (base64Encode [104, 105]) = some [104, 105] ∧
    GPart.inline (base64Encode [104, 105]) "image/png" ∈
      buildImageParts (fun _ => some ⟨"image/png", [104, 105]⟩) 1 :=
  have h := c6_inline_base64 ⟨"image/png", [104, 105]⟩ (by decide)
  ⟨h.1, h.2.2 (fun _ => some ⟨"image/png", [104, 105]⟩) 1 0 (by decide) rfl⟩

/-! ## Trimming lemmas -/

/-- A list whose head fails `p` survives dropWhile. -/
theorem dropWhile_eq_self_of_head (p : Char → Bool) (l : List Char)
    (h : ∀ c, l.head? = some c → p c = false) : l.dropWhile p = l := by
  cases l with
  | nil => rfl
  | cons c rest => simp [List.dropWhile_cons, h c rfl]

/-- A list whose head and last character fail `p` survives trimming. -/
theorem trimBy_eq_self (p : Char → Bool) (l : List Char)
    (h1 : ∀ c, l.head? = some c → p c = false)
    (h2 : ∀ c, l.getLast? = some c → p c = false) : trimBy p l = l := by
  unfold trimBy
  rw [dropWhile_eq_self_of_head p l h1]
  rw [dropWhile_eq_self_of_head p l.reverse
    (fun c hc => h2 c (by rwa [List.head?_reverse] at hc))]
  exact List.reverse_reverse l

/-- A dropWhile fixed point has a head failing `p`. -/
theorem head_false_of_dropWhile_eq (p : Char → Bool) (m : List Char)
    (h : m.dropWhile p = m) : ∀ c, m.head? = some c → p c = false := by
  cases m with
  | nil => intro c hc; simp at hc
  | cons a rest =>
    intro c hc
    have ha : p a = false := by
      cases hp : p a with
      | false => rfl
      | true =>
        exfalso
        rw [List.dropWhile_cons, hp, if_pos rfl] at h
        have hle := (List.dropWhile_suffix (l := rest) p).length_le
        have hlen := congrArg List.length h
        simp at hlen
        omega
    have hac : a = c := by simpa using hc
    rwa [← hac]

/-- A trimBy fixed point is a dropWhile fixed point. -/
theorem dropWhile_eq_of_trimBy_eq (p : Char → Bool) (l : List Char)
    (h : trimBy p l = l) : l.dropWhile p = l := by
  have h1 : (trimBy p l).length ≤ (l.dropWhile p).length := by
    unfold trimBy
    simpa using (List.dropWhile_suffix (l := (l.dropWhile p).reverse) p).length_le
  have h2 : (l.dropWhile p).length ≤ l.length :=
    (List.dropWhile_suffix (l := l) p).length_le
  rw [h] at h1
  exact (List.dropWhile_suffix p).eq_of_length (le_antisymm h2 h1)

/-- A trimBy fixed point reversed is a dropWhile fixed point. -/
theorem rev_dropWhile_eq_of_trimBy_eq (p : Char → Bool) (l : List Char)
    (h : trimBy p l = l) : l.reverse.dropWhile p = l.reverse := by
  have hd := dropWhile_eq_of_trimBy_eq p l h
  unfold trimBy at h
  rw [hd] at h
  have := congrArg List.reverse h
  simpa using this

/-- The head of a trim-invariant list fails `p`. -/
theorem head_false_of_trimBy_eq (p : Char → Bool) (l : List Char)
    (h : trimBy p l = l) : ∀ c, l.head? = some c → p c = false :=
  head_false_of_dropWhile_eq p l (dropWhile_eq_of_trimBy_eq p l h)

/-- The last character of a trim-invariant list fails `p`. -/
theorem last_false_of_trimBy_eq (p : Char → Bool) (l : List Char)
    (h : trimBy p l = l) : ∀ c, l.getLast? = some c → p c = false := by
  intro c hc
  exact head_false_of_dropWhile_eq p l.reverse
    (rev_dropWhile_eq_of_trimBy_eq p l h) c (by rwa [List.head?_reverse])

/-- RFC whitespace is JS whitespace. -/
theorem owsp_imp_jsWs (c : Char) (h : owsp c = true) : jsWs c = true := by
  simp only [owsp, Bool.or_eq_true, decide_eq_true_eq] at h
  rcases h with h | h <;> subst h <;> decide

/-- A JS-trim-invariant list is also OWS-trim-invariant. -/
theorem trimOWS_of_jsTrim (l : List Char) (h : jsTrimL l = l) : trimOWS l = l := by
  apply trimBy_eq_self
  · intro c hc
    have := head_false_of_trimBy_eq jsWs l h c hc
    cases ho : owsp c with
    | false => rfl
    | true => rw [owsp_imp_jsWs c ho] at this; exact this
  · intro c hc
    have := last_false_of_trimBy_eq jsWs l h c hc
    cases ho : owsp c with
    | false => rfl
    | true => rw [owsp_imp_jsWs c ho] at this; exact this

/-- A list of non-whitespace characters is OWS-trim-invariant. -/
theorem trimOWS_of_no_ws (l : List Char) (h : ∀ c ∈ l, jsWs c = false) :
    trimOWS l = l := by
  apply trimBy_eq_self
  · intro c hc
    have hm := h c (List.mem_of_mem_head? hc)
    cases ho : owsp c with
    | false => rfl
    | true => rw [owsp_imp_jsWs c ho] at hm; exact hm
  · intro c hc
    have hm := h c (List.mem_of_mem_getLast? hc)
    cases ho : owsp c with
    | false => rfl
    | true => rw [owsp_imp_jsWs c ho] at hm; exact hm

/-- Trimming is unaffected by a leading space. -/
theorem jsTrimL_cons_space (l : List Char) : jsTrimL (' ' :: l) = jsTrimL l := by
  unfold jsTrimL trimBy
  rw [List.dropWhile_cons, (by decide : jsWs ' ' = true), if_pos rfl]

/-- Trim invariance of a serialized cookie entry whose name is
trim-invariant and whose value has no whitespace. -/
theorem jsTrim_entry (n v : List Char) (hn : jsTrimL n = n)
    (hv : ∀ c ∈ v, jsWs c = false) :
    jsTrimL (n ++ '=' :: v) = n ++ '=' :: v := by
  apply trimBy_eq_self
  · intro c hc
    cases n with
    | nil =>
      simp only [List.nil_append, List.head?_cons, Option.some.injEq] at hc
      subst hc
      decide
    | cons a t =>
      have hac : a = c := by simpa using hc
      have := head_false_of_trimBy_eq jsWs (a :: t) hn a rfl
      rwa [hac] at this
  · intro c hc
    rw [List.getLast?_append, List.getLast?_eq_getLast ('=' :: v) (by simp)] at hc
    simp only [Option.or, Option.some.injEq] at hc
    have hmem : ('=' :: v).getLast (by simp) ∈ '=' :: v := List.getLast_mem _
    rw [hc] at hmem
    rcases List.mem_cons.mp hmem with h | h
    · subst h; decide
    · exact hv c h

/-! ## URI component round-trip lemmas -/

/-- Every character code point is below 0x110000. -/
theorem char_toNat_lt (c : Char) : c.toNat < 1114112 := by
  show c.val.toNat < 1114112
  rcases c.valid with h | ⟨_, h⟩
  · have := @UInt32.toNat_lt_of_lt c.val 55296 (by decide) h
    omega
  · exact @UInt32.toNat_lt_of_lt c.val 1114112 (by decide) h

/-- UTF-8 bytes are bytes. -/
theorem utf8Bytes_lt (c : Char) : ∀ b ∈ utf8Bytes c, b < 256 := by
  intro b hb
  have hc := char_toNat_lt c
  simp only [utf8Bytes] at hb
  split at hb
  · simp at hb; omega
  · split at hb
    · simp at hb; rcases hb with hb | hb <;> omega
    · split at hb
      · simp at hb; rcases hb with hb | hb | hb <;> omega
      · simp at hb; rcases hb with hb | hb | hb | hb <;> omega

/-- An unreserved character is not whitespace. -/
theorem unreserved_not_ws (c : Char) (h : isUnreservedURI c = true) :
    jsWs c = false := by
  cases hw : jsWs c with
  | false => rfl
  | true =>
    exfalso
    simp only [isUnreservedURI, decide_eq_true_eq] at h
    simp only [jsWs, Bool.or_eq_true, Bool.and_eq_true, decide_eq_true_eq] at hw
    omega

/-- An unreserved character is not a semicolon. -/
theorem unreserved_ne_semi (c : Char) (h : isUnreservedURI c = true) : c ≠ ';' :=
  fun heq => absurd (heq ▸ h) (by decide)

/-- An unreserved character is not an equals sign. -/
theorem unreserved_ne_eqsign (c : Char) (h : isUnreservedURI c = true) : c ≠ '=' :=
  fun heq => absurd (heq ▸ h) (by decide)

/-- An unreserved character is not a percent sign. -/
theorem unreserved_ne_pct (c : Char) (h : isUnreservedURI c = true) : c ≠ '%' :=
  fun heq => absurd (heq ▸ h) (by decide)

/-- Decoding a hexadecimal digit inverts producing it. -/
theorem hexVal_hexDigit : ∀ n < 16, hexVal (hexDigit n) = some n := by decide

/-- Character-class facts for hexadecimal digits. -/
theorem hexDigit_classes : ∀ n < 16,
    jsWs (hexDigit n) = false ∧ hexDigit n ≠ ';' ∧ hexDigit n ≠ '=' := by decide

/-- Every character produced by encodeURIComponent is non-whitespace and
distinct from the semicolon and equals sign. -/
theorem enc_chars : ∀ (v : List Char) (ch : Char), ch ∈ encodeURIComponentL v →
    jsWs ch = false ∧ ch ≠ ';' ∧ ch ≠ '=' := by
  intro v
  induction v with
  | nil => intro ch h; simp [encodeURIComponentL] at h
  | cons c rest ih =>
    intro ch h
    rw [encodeURIComponentL] at h
    rcases List.mem_append.mp h with h1 | h2
    · by_cases hu : isUnreservedURI c = true
      · rw [if_pos hu] at h1
        have : ch = c := by simpa using h1
        subst this
        exact ⟨unreserved_not_ws ch hu, unreserved_ne_semi ch hu, unreserved_ne_eqsign ch hu⟩
      · rw [if_neg hu] at h1
        rcases List.mem_flatMap.mp h1 with ⟨b, hb, hch⟩
        have hblt : b < 256 := utf8Bytes_lt c b hb
        unfold percentByte at hch
        simp only [List.mem_cons, List.not_mem_nil, or_false] at hch
        rcases hch with hch | hch | hch <;> subst hch
        · exact ⟨by decide, by decide, by decide⟩
        · exact hexDigit_classes (b / 16) (by omega)
        · exact hexDigit_classes (b % 16) (by omega)
    · exact ih ch h2

/-- Decoding a literal (non-percent) character. -/
theorem pd_literal (c : Char) (hc : c ≠ '%') (rest : List Char) :
    percentDecodeBytes (c :: rest) =
      (percentDecodeBytes rest).map (fun bs => utf8Bytes c ++ bs) := by
  rw [percentDecodeBytes.eq_def]
  simp only []
  rw [if_neg hc]

/-- Decoding a percent-encoded byte. -/
theorem pd_percentByte (b : Nat) (hb : b < 256) (rest : List Char) :
    percentDecodeBytes (percentByte b ++ rest) =
      (percentDecodeBytes rest).map (fun bs => b :: bs) := by
  have h1 := hexVal_hexDigit (b / 16) (by omega)
  have h2 := hexVal_hexDigit (b % 16) (by omega)
  show percentDecodeBytes ('%' :: hexDigit (b / 16) :: hexDigit (b % 16) :: rest) = _
  rw [percentDecodeBytes.eq_def]
  simp only []
  simp only [if_true]
  simp only [h1, h2]
  cases hp : percentDecodeBytes rest with
  | none => rfl
  | some bs =>
    have hr : b / 16 * 16 + b % 16 = b := by omega
    simp only [hr]
    rfl

/-- Decoding a percent-encoded byte list prefixed to a remainder. -/
theorem pd_bytes : ∀ (bsl : List Nat), (∀ b ∈ bsl, b < 256) → ∀ (r : List Char),
    percentDecodeBytes (bsl.flatMap percentByte ++ r) =
      (percentDecodeBytes r).map (fun bs => bsl ++ bs) := by
  intro bsl
  induction bsl with
  | nil => intro h r; simp
  | cons b t ih =>
    intro h r
    have hb : b < 256 := h b (by simp)
    rw [List.flatMap_cons, List.append_assoc, pd_percentByte b hb,
      ih (fun x hx => h x (by simp [hx])) r]
    cases percentDecodeBytes r with
    | none => rfl
    | some bs => rfl

/-- The percent-decoding phase inverts encodeURIComponent into the UTF-8
byte stream of the original string. -/
theorem pd_encode : ∀ v : List Char,
    percentDecodeBytes (encodeURIComponentL v) = some (v.flatMap utf8Bytes) := by
  intro v
  induction v with
  | nil => rfl
  | cons c rest ih =>
    rw [encodeURIComponentL]
    by_cases hu : isUnreservedURI c = true
    · rw [if_pos hu, List.singleton_append, pd_literal c (unreserved_ne_pct c hu), ih]
      simp
    · rw [if_neg hu, pd_bytes (utf8Bytes c) (utf8Bytes_lt c), ih]
      simp

/-- UTF-8 decoding inverts UTF-8 encoding of one character prefixed to a
remainder. -/
theorem utf8Decode_append (c : Char) (bs : List Nat) :
    utf8Decode (utf8Bytes c ++ bs) = (utf8Decode bs).map (fun cs => c :: cs) := by
  have hc := char_toNat_lt c
  unfold utf8Bytes
  by_cases h1 : c.toNat < 128
  · rw [if_pos h1]
    show utf8Decode (c.toNat :: bs) = _
    rw [utf8Decode.eq_def]
    simp only []
    rw [if_pos h1, Char.ofNat_toNat]
  · rw [if_neg h1]
    by_cases h2 : c.toNat < 2048
    · rw [if_pos h2]
      show utf8Decode ((192 + c.toNat / 64) :: (128 + c.toNat % 64) :: bs) = _
      rw [utf8Decode.eq_def]
      simp only []
      rw [if_neg (by omega), if_neg (by omega), if_pos (by omega : 192 + c.toNat / 64 < 224)]
      rw [if_pos (by omega : 128 ≤ 128 + c.toNat % 64 ∧ 128 + c.toNat % 64 < 192)]
      rw [show (192 + c.toNat / 64 - 192) * 64 + (128 + c.toNat % 64 - 128) = c.toNat by omega]
      rw [Char.ofNat_toNat]
    · by_cases h3 : c.toNat < 65536
      · rw [if_neg h2, if_pos h3]
        show utf8Decode
          ((224 + c.toNat / 4096) :: (128 + c.toNat / 64 % 64) :: (128 + c.toNat % 64) :: bs) = _
        rw [utf8Decode.eq_def]
        simp only []
        rw [if_neg (by omega), if_neg (by omega), if_neg (by omega),
          if_pos (by omega : 224 + c.toNat / 4096 < 240)]
        rw [if_pos (by omega :
          (128 ≤ 128 + c.toNat / 64 % 64 ∧ 128 + c.toNat / 64 % 64 < 192) ∧
          (128 ≤ 128 + c.toNat % 64 ∧ 128 + c.toNat % 64 < 192))]
        rw [show (224 + c.toNat / 4096 - 224) * 4096 + (128 + c.toNat / 64 % 64 - 128) * 64 +
          (128 + c.toNat % 64 - 128) = c.toNat by omega]
        rw [Char.ofNat_toNat]
      · rw [if_neg h2, if_neg h3]
        show utf8Decode ((240 + c.toNat / 262144) :: (128 + c.toNat / 4096 % 64) ::
          (128 + c.toNat / 64 % 64) :: (128 + c.toNat % 64) :: bs) = _
        rw [utf8Decode.eq_def]
        simp only []
        rw [if_neg (by omega), if_neg (by omega), if_neg (by omega),
          if_neg (by omega), if_pos (by omega : 240 + c.toNat / 262144 < 248)]
        rw [if_pos (by omega :
          ((128 ≤ 128 + c.toNat / 4096 % 64 ∧ 128 + c.toNat / 4096 % 64 < 192) ∧
           128 ≤ 128 + c.toNat / 64 % 64 ∧ 128 + c.toNat / 64 % 64 < 192) ∧
          128 ≤ 128 + c.toNat % 64 ∧ 128 + c.toNat % 64 < 192)]
        rw [show (240 + c.toNat / 262144 - 240) * 262144 + (128 + c.toNat / 4096 % 64 - 128) * 4096 +
          (128 + c.toNat / 64 % 64 - 128) * 64 + (128 + c.toNat % 64 - 128) = c.toNat by omega]
        rw [Char.ofNat_toNat]

/-- UTF-8 decoding inverts the concatenated UTF-8 encoding of a string. -/
theorem utf8_roundtrip : ∀ v : List Char, utf8Decode (v.flatMap utf8Bytes) = some v := by
  intro v
  induction v with
  | nil => rfl
  | cons c rest ih => rw [List.flatMap_cons, utf8Decode_append, ih]; rfl

/-- Claim groundwork: decodeURIComponent inverts encodeURIComponent. -/
theorem uri_roundtrip (v : List Char) :
    decodeURIComponentL (encodeURIComponentL v) = some v := by
  unfold decodeURIComponentL
  rw [pd_encode v]
  simpa using utf8_roundtrip v

/-! ## Cookie jar lemmas -/

/-- Well-formedness of a browser cookie-jar entry, per RFC 6265: the name
has no equals sign or semicolon and no surrounding whitespace, the value
has no semicolon and no whitespace (cookie-octets exclude whitespace). -/
def wfEntry (e : List Char × List Char) : Prop :=
  '=' ∉ e.1 ∧ ';' ∉ e.1 ∧ jsTrimL e.1 = e.1 ∧ ';' ∉ e.2 ∧ ∀ c ∈ e.2, jsWs c = false

/-- Splitting at a character not at the head keeps the head in the first
group. -/
theorem splitChar_cons_ne (sep c : Char) (l : List Char) (h : c ≠ sep) :
    splitChar sep (c :: l) =
      match splitChar sep l with
      | [] => [[c]]
      | g :: gs => (c :: g) :: gs := by
  rw [splitChar.eq_def]
  simp only []
  rw [if_neg h]

/-- Splitting a separator-free list yields that list alone. -/
theorem splitChar_sepfree (sep : Char) : ∀ l, sep ∉ l → splitChar sep l = [l] := by
  intro l
  induction l with
  | nil => intro h; rfl
  | cons c t ih =>
    intro h
    have hc : c ≠ sep := fun heq => h (by rw [heq]; exact List.mem_cons_self _ _)
    have ht : sep ∉ t := fun hm => h (List.mem_cons_of_mem _ hm)
    rw [splitChar_cons_ne sep c t hc, ih ht]

/-- Splitting after a separator-free head group. -/
theorem splitChar_append (sep : Char) : ∀ l r, sep ∉ l →
    splitChar sep (l ++ sep :: r) = l :: splitChar sep r := by
  intro l
  induction l with
  | nil =>
    intro r h
    show splitChar sep (sep :: r) = [] :: splitChar sep r
    rw [splitChar.eq_def]
    simp
  | cons c t ih =>
    intro r h
    have hc : c ≠ sep := fun heq => h (by rw [heq]; exact List.mem_cons_self _ _)
    have ht : sep ∉ t := fun hm => h (List.mem_cons_of_mem _ hm)
    rw [List.cons_append, splitChar_cons_ne sep c _ hc, ih r ht]

/-- The split of a serialized jar: the first entry verbatim, later entries
with the leading space of the separator. -/
theorem splitChar_jarChars :
    ∀ (es : List (List Char × List Char)),
      (∀ e ∈ es, ';' ∉ e.1 ∧ ';' ∉ e.2) →
      splitChar ';' (jarChars es) =
        match es with
        | [] => [[]]
        | e :: rest =>
          (e.1 ++ '=' :: e.2) :: rest.map (fun e2 => ' ' :: (e2.1 ++ '=' :: e2.2)) := by
  intro es
  induction es with
  | nil => intro h; rfl
  | cons e rest ih =>
    intro h
    rcases e with ⟨n, v⟩
    obtain ⟨hn, hv⟩ := h (n, v) (List.mem_cons_self _ _)
    have hent : ';' ∉ n ++ '=' :: v := by
      intro hm
      rcases List.mem_append.mp hm with hm | hm
      · exact hn hm
      · rcases List.mem_cons.mp hm with hm | hm
        · exact absurd hm (by decide)
        · exact hv hm
    cases rest with
    | nil =>
      show splitChar ';' (n ++ ('=' :: (v ++ []))) = [n ++ '=' :: v]
      rw [List.append_nil]
      exact splitChar_sepfree ';' _ hent
    | cons e2 rest2 =>
      have hjar : jarChars ((n, v) :: e2 :: rest2) =
          (n ++ '=' :: v) ++ ';' :: ' ' :: jarChars (e2 :: rest2) := by
        rw [jarChars.eq_def]
        simp only []
        rw [if_neg (by simp)]
        simp
      rw [hjar, splitChar_append ';' _ _ hent]
      congr 1
      rw [splitChar_cons_ne ';' ' ' _ (by decide)]
      rw [ih (fun e' he' => h e' (List.mem_cons_of_mem _ he'))]
      rfl

/-- An entry of equals-free name equal to an equals-free prefix name. -/
theorem entry_prefix_name : ∀ (name n v w : List Char),
    '=' ∉ name → '=' ∉ n →
    n ++ '=' :: v = (name ++ ['=']) ++ w → name = n := by
  intro name
  induction name with
  | nil =>
    intro n v w _ hn h
    cases n with
    | nil => rfl
    | cons a t =>
      exfalso
      simp only [List.nil_append, List.cons_append, List.singleton_append] at h
      injection h with h1 h2
      exact hn (by rw [h1]; exact List.mem_cons_self _ _)
  | cons c nt ih =>
    intro n v w hm hn h
    cases n with
    | nil =>
      exfalso
      simp only [List.nil_append, List.cons_append] at h
      injection h with h1 h2
      exact hm (by rw [← h1]; exact List.mem_cons_self _ _)
    | cons a t =>
      simp only [List.cons_append] at h
      injection h with h1 h2
      have hr := ih t v w (fun hx => hm (List.mem_cons_of_mem _ hx))
        (fun hx => hn (List.mem_cons_of_mem _ hx)) h2
      rw [h1, hr]

/-- Unfolding of one step of the get loop. -/
theorem getFromPieces_cons (nameEQ p : List Char) (ps : List (List Char)) :
    getFromPieces nameEQ (p :: ps) =
      if (jsTrimL p).take nameEQ.length = nameEQ
      then decodeURIComponentL ((jsTrimL p).drop nameEQ.length)
      else getFromPieces nameEQ ps := rfl

/-- A leading space on a piece is invisible to the get loop. -/
theorem getFromPieces_space (nameEQ p : List Char) (ps : List (List Char)) :
    getFromPieces nameEQ ((' ' :: p) :: ps) = getFromPieces nameEQ (p :: ps) := by
  rw [getFromPieces_cons, getFromPieces_cons, jsTrimL_cons_space]

/-- A well-formed entry of a different name never matches the searched
name prefix. -/
theorem wf_entry_no_match (name n v : List Char)
    (hme : '=' ∉ name) (hn : '=' ∉ n) (hvws : ∀ c ∈ v, jsWs c = false)
    (hnt : jsTrimL n = n) (hneq : n ≠ name) :
    (jsTrimL (n ++ '=' :: v)).take (name ++ ['=']).length ≠ name ++ ['='] := by
  rw [jsTrim_entry n v hnt hvws]
  intro h
  have hw := List.take_append_drop (name ++ ['=']).length (n ++ '=' :: v)
  rw [h] at hw
  exact hneq (entry_prefix_name name n v _ hme hn hw.symm).symm

/-- The entry written by cookieUtils.set matches the searched name prefix
and yields back the stored encoded value. -/
theorem our_entry_match (name enc : List Char) (hnt : jsTrimL name = name)
    (hews : ∀ c ∈ enc, jsWs c = false) :
    (jsTrimL (name ++ '=' :: enc)).take (name ++ ['=']).length = name ++ ['='] ∧
    (jsTrimL (name ++ '=' :: enc)).drop (name ++ ['=']).length = enc := by
  rw [jsTrim_entry name enc hnt hews]
  have hsplit : name ++ '=' :: enc = (name ++ ['=']) ++ enc := by simp
  rw [hsplit]
  exact ⟨List.take_left _ _, List.drop_left _ _⟩

/-- The updated jar is never empty. -/
theorem updateJar_ne_nil (jar : List (List Char × List Char)) (n v : List Char) :
    updateJar jar n v ≠ [] := by
  cases jar with
  | nil => simp [updateJar]
  | cons e rest =>
    rcases e with ⟨n0, v0⟩
    unfold updateJar
    split <;> simp

/-- Updating a well-formed jar with a well-formed entry keeps it
well-formed. -/
theorem updateJar_wf (n v : List Char) (hw : wfEntry (n, v)) :
    ∀ (jar : List (List Char × List Char)), (∀ e ∈ jar, wfEntry e) →
      ∀ e ∈ updateJar jar n v, wfEntry e := by
  intro jar
  induction jar with
  | nil =>
    intro h e he
    simp only [updateJar, List.mem_singleton] at he
    subst he
    exact hw
  | cons e0 rest ih =>
    intro h e he
    rcases e0 with ⟨n0, v0⟩
    unfold updateJar at he
    by_cases h0 : n0 = n
    · rw [if_pos h0] at he
      rcases List.mem_cons.mp he with he | he
      · subst he; exact hw
      · exact h _ (List.mem_cons_of_mem _ he)
    · rw [if_neg h0] at he
      rcases List.mem_cons.mp he with he | he
      · subst he; exact h _ (List.mem_cons_self _ _)
      · exact ih (fun e' he' => h e' (List.mem_cons_of_mem _ he')) e he

/-- The set operation parses its own written string back into a plain jar
update with the percent-encoded value. -/
theorem cookieSet_jar (jar : List (List Char × List Char))
    (name value expiresStr : List Char)
    (hne : '=' ∉ name) (hns : ';' ∉ name) (hnt : jsTrimL name = name) :
    cookieSet jar name value expiresStr =
      updateJar jar name (encodeURIComponentL value) := by
  have hencs : ∀ ch ∈ encodeURIComponentL value, ch ≠ ';' :=
    fun ch hm => (enc_chars value ch hm).2.1
  have hews : ∀ ch ∈ encodeURIComponentL value, jsWs ch = false :=
    fun ch hm => (enc_chars value ch hm).1
  unfold cookieSet browserSetCookie setCookieString
  have hassoc : name ++ ('=' :: (encodeURIComponentL value ++
      (";expires=".data ++ expiresStr ++ ";path=/;secure;samesite=strict".data))) =
      (name ++ '=' :: encodeURIComponentL value) ++
        (';' :: ("expires=".data ++ expiresStr ++ ";path=/;secure;samesite=strict".data)) := by
    simp
  rw [hassoc]
  have hpos : ∀ a ∈ name ++ '=' :: encodeURIComponentL value,
      (fun c => decide (c ≠ ';')) a = true := by
    intro a ha
    simp only [decide_eq_true_eq]
    rcases List.mem_append.mp ha with ha | ha
    · exact fun heq => hns (heq ▸ ha)
    · rcases List.mem_cons.mp ha with ha | ha
      · rw [ha]; decide
      · exact hencs a ha
  have htake : ((name ++ '=' :: encodeURIComponentL value) ++
      (';' :: ("expires=".data ++ expiresStr ++ ";path=/;secure;samesite=strict".data))).takeWhile
        (fun c => c ≠ ';') = name ++ '=' :: encodeURIComponentL value := by
    rw [List.takeWhile_append_of_pos hpos]
    rw [List.takeWhile_cons, (by decide : (decide ((';' : Char) ≠ ';')) = false)]
    simp
  rw [htake]
  rw [if_pos (by exact List.mem_append_right name (List.mem_cons_self '=' _))]
  have hposeq : ∀ a ∈ name, (fun c => decide (c ≠ '=')) a = true := by
    intro a ha
    simp only [decide_eq_true_eq]
    exact fun heq => hne (heq ▸ ha)
  have htw : (name ++ '=' :: encodeURIComponentL value).takeWhile (fun c => c ≠ '=') =
      name := by
    rw [List.takeWhile_append_of_pos hposeq]
    rw [List.takeWhile_cons, (by decide : (decide (('=' : Char) ≠ '=')) = false)]
    simp
  have hdw : (name ++ '=' :: encodeURIComponentL value).dropWhile (fun c => c ≠ '=') =
      '=' :: encodeURIComponentL value := by
    rw [List.dropWhile_append_of_pos hposeq]
    rw [List.dropWhile_cons, (by decide : (decide (('=' : Char) ≠ '=')) = false)]
    simp
  rw [htw, hdw]
  simp only [List.drop_succ_cons, List.drop_zero]
  rw [trimOWS_of_jsTrim name hnt, trimOWS_of_no_ws _ hews]

/-- Reading back the name just set from the serialized updated jar yields
the percent-decoded stored value. -/
theorem get_updateJar (name enc : List Char)
    (hne : '=' ∉ name) (hns : ';' ∉ name) (hnt : jsTrimL name = name)
    (hencs : ';' ∉ enc) (hews : ∀ c ∈ enc, jsWs c = false) :
    ∀ (jar : List (List Char × List Char)), (∀ e ∈ jar, wfEntry e) →
      cookieGet (jarChars (updateJar jar name enc)) name = decodeURIComponentL enc := by
  have hwfour : wfEntry (name, enc) := ⟨hne, hns, hnt, hencs, hews⟩
  intro jar
  induction jar with
  | nil =>
    intro hwf
    unfold cookieGet
    show getFromPieces (name ++ ['=']) (splitChar ';' (jarChars [(name, enc)])) = _
    rw [splitChar_jarChars [(name, enc)] (by
      intro e he
      simp only [List.mem_singleton] at he
      subst he
      exact ⟨hns, hencs⟩)]
    show getFromPieces (name ++ ['=']) [name ++ '=' :: enc] = _
    rw [getFromPieces_cons, if_pos (our_entry_match name enc hnt hews).1,
      (our_entry_match name enc hnt hews).2]
  | cons e0 rest ih =>
    intro hwf
    rcases e0 with ⟨n0, v0⟩
    obtain ⟨h0e, h0s, h0t, h0vs, h0vw⟩ := hwf (n0, v0) (List.mem_cons_self _ _)
    have hwrest : ∀ e ∈ rest, wfEntry e := fun e he => hwf e (List.mem_cons_of_mem _ he)
    unfold cookieGet
    by_cases h0 : n0 = name
    · show getFromPieces (name ++ ['='])
        (splitChar ';' (jarChars (updateJar ((n0, v0) :: rest) name enc))) = _
      rw [show updateJar ((n0, v0) :: rest) name enc = (name, enc) :: rest by
        unfold updateJar; rw [if_pos h0]]
      rw [splitChar_jarChars ((name, enc) :: rest) (by
        intro e he
        rcases List.mem_cons.mp he with he | he
        · subst he; exact ⟨hns, hencs⟩
        · have := hwrest e he
          exact ⟨this.2.1, this.2.2.2.1⟩)]
      show getFromPieces (name ++ ['='])
        ((name ++ '=' :: enc) :: rest.map (fun e2 => ' ' :: (e2.1 ++ '=' :: e2.2))) = _
      rw [getFromPieces_cons, if_pos (our_entry_match name enc hnt hews).1,
        (our_entry_match name enc hnt hews).2]
    · show getFromPieces (name ++ ['='])
        (splitChar ';' (jarChars (updateJar ((n0, v0) :: rest) name enc))) = _
      rw [show updateJar ((n0, v0) :: rest) name enc = (n0, v0) :: updateJar rest name enc by
        rw [updateJar.eq_def]; simp only []; rw [if_neg h0]]
      have hwup : ∀ e ∈ updateJar rest name enc, wfEntry e :=
        updateJar_wf name enc hwfour rest hwrest
      rw [splitChar_jarChars ((n0, v0) :: updateJar rest name enc) (by
        intro e he
        rcases List.mem_cons.mp he with he | he
        · subst he; exact ⟨h0s, h0vs⟩
        · have := hwup e he
          exact ⟨this.2.1, this.2.2.2.1⟩)]
      show getFromPieces (name ++ ['='])
        ((n0 ++ '=' :: v0) ::
          (updateJar rest name enc).map (fun e2 => ' ' :: (e2.1 ++ '=' :: e2.2))) = _
      rw [getFromPieces_cons,
        if_neg (wf_entry_no_match name n0 v0 hne h0e h0vw h0t h0)]
      rcases hu : updateJar rest name enc with _ | ⟨u0, utail⟩
      · exact absurd hu (updateJar_ne_nil rest name enc)
      · rw [List.map_cons, getFromPieces_space]
        have hih := ih hwrest
        unfold cookieGet at hih
        rw [hu] at hih
        rw [splitChar_jarChars (u0 :: utail) (by
          intro e he
          have : e ∈ updateJar rest name enc := by rw [hu]; exact he
          have hw := hwup e this
          exact ⟨hw.2.1, hw.2.2.2.1⟩)] at hih
        simp only [] at hih
        exact hih

/-- Claim C9 counterexample: a cookie name with a leading space contains
no equals sign or semicolon, yet set followed by get returns null (and
exists returns false), because the browser stores the name trimmed while
get searches for the untrimmed name. -/
theorem c9_counterexample :
    ('=' ∉ [' ', 'a']) ∧ (';' ∉ [' ', 'a']) ∧
    cookieGet (jarChars (cookieSet [] [' ', 'a'] ['x'] [])) [' ', 'a'] = none ∧
    cookieHas (jarChars (cookieSet [] [' ', 'a'] ['x'] [])) [' ', 'a'] = false := by
  decide

/-- Claim C9 (amended): for every cookie name with no equals sign or
semicolon that is also unchanged by trimming, and every value, setting the
cookie in any well-formed browser jar and reading it back through the
serialized jar string returns exactly the value, and exists returns true. -/
theorem c9_amended_cookie_roundtrip :
    ∀ (jar : List (List Char × List Char)) (name value expiresStr : List Char),
      (∀ e ∈ jar, wfEntry e) →
      '=' ∉ name → ';' ∉ name → jsTrimL name = name →
      cookieGet (jarChars (cookieSet jar name value expiresStr)) name = some value ∧
      cookieHas (jarChars (cookieSet jar name value expiresStr)) name = true := by
  intro jar name value expiresStr hwf hne hns hnt
  have hencs : ';' ∉ encodeURIComponentL value :=
    fun hm => (enc_chars value ';' hm).2.1 rfl
  have hews : ∀ c ∈ encodeURIComponentL value, jsWs c = false :=
    fun c hc => (enc_chars value c hc).1
  rw [cookieSet_jar jar name value expiresStr hne hns hnt]
  have hget := get_updateJar name (encodeURIComponentL value) hne hns hnt hencs hews jar hwf
  refine ⟨?_, ?_⟩
  · rw [hget]
    exact uri_roundtrip value
  · unfold cookieHas
    rw [hget, uri_roundtrip value]
    rfl

/-- Witness for the amended claim C9 at a concrete name and value in an
empty jar. -/
theorem c9_amended_cookie_roundtrip_witness :
    cookieGet (jarChars (cookieSet [] ['a'] ['x'] [])) ['a'] = some ['x'] ∧
    cookieHas (jarChars (cookieSet [] ['a'] ['x'] [])) ['a'] = true :=
  c9_amended_cookie_roundtrip [] ['a'] ['x'] []
    (fun e he => absurd he (List.not_mem_nil e)) (by decide) (by decide) (by decide)

end MagicBanana
